import Mathlib

/-!
Verification development for the kafka server connection pipeline and the
raft heartbeat manager group registry of this repository.

The embedding models, from the source:
  kafka_server::connection::process_size    -> process_size
  kafka_server::connection::read_header     -> read_header
  kafka_server::connection::process_request -> process_request
  kafka_server::connection::process         -> process_loop / connection_process
  kafka_server::connection::write_response  -> write_response
  kafka_server::connection::do_process      -> chainStep / chainRun (the
    per-connection _ready_to_respond barrier rebinding)
  the admission semaphore (_memory_available) -> SemStep / SemReach
  raft::details::consensus_ptr_by_group_id and the heartbeat manager's
    flat_set of groups -> hm_insert / hm_erase / hm_apply

Machine integers are modelled as Nat with explicit big-endian byte
serialisation; signed wire fields are interpreted through signed16 /
negativity tests on the raw unsigned value, exactly as be_to_cpu plus a
signed comparison does in the source.
-/

namespace RP

/-! Byte-order helpers. cpu_to_be / be_to_cpu on i16 and i32 values. -/

def be16 (x : Nat) : List Nat := [x / 256 % 256, x % 256]

def be32 (x : Nat) : List Nat :=
  [x / 2 ^ 24 % 256, x / 2 ^ 16 % 256, x / 2 ^ 8 % 256, x % 256]

def decode16 (a b : Nat) : Nat := a * 256 + b

def decode32 (a b c d : Nat) : Nat := ((a * 256 + b) * 256 + c) * 256 + d

/-- Interpretation of a 16-bit big-endian value as a signed int16, as
be_to_cpu into an int16_t does in read_header. -/
def signed16 (n : Nat) : Int :=
  if n < 2 ^ 15 then (n : Int) else (n : Int) - 2 ^ 16

/-! Input stream model. A seastar input_stream is modelled as the list of
bytes not yet consumed plus the sticky eof flag, which becomes set when a
read asks for more bytes than the stream still holds. -/

structure ByteStream where
  data : List Nat
  eofSeen : Bool
deriving DecidableEq

/-- Model of input_stream::read_exactly: returns up to n bytes; a short
read marks the stream as having reached end of file. -/
def readExactly (n : Nat) (s : ByteStream) : List Nat × ByteStream :=
  (s.data.take n,
   { data := s.data.drop n,
     eofSeen := s.eofSeen || decide (s.data.length < n) })

/-! Errors thrown by the framing layer (each corresponds to one throw site
in the source). -/

inductive KErr where
  | negativeSize
  | oversize
  | eofHeader
  | eofClientId
  | invalidUtf8
deriving DecidableEq

/-- Request header as parsed by read_header: api_key, api_version,
correlation_id and the optional client id (none models the on-wire -1). -/
structure RequestHeader where
  apiKey : Nat
  apiVersion : Nat
  correlationId : Nat
  clientId : Option (List Nat)
deriving DecidableEq

/-- Length of the client_id_buffer owned by a header (zero when the client
id was absent or empty). -/
def clientIdLen (h : RequestHeader) : Nat :=
  match h.clientId with
  | some l => l.length
  | none => 0

/-- Modelled from the spec: utils/utf8.h (validate_utf8) is not among the
visible sources; the spec requires client-id bytes to be valid UTF-8, so
this is the standard RFC 3629 validity check. -/
def validUtf8 : List Nat → Bool
  | [] => true
  | b :: rest =>
    if b < 0x80 then validUtf8 rest
    else if 0xC2 ≤ b && b ≤ 0xDF then
      match rest with
      | c :: r2 => (0x80 ≤ c && c ≤ 0xBF) && validUtf8 r2
      | [] => false
    else if b == 0xE0 then
      match rest with
      | c :: c2 :: r2 =>
        (0xA0 ≤ c && c ≤ 0xBF) && (0x80 ≤ c2 && c2 ≤ 0xBF) && validUtf8 r2
      | _ => false
    else if (0xE1 ≤ b && b ≤ 0xEC) || (0xEE ≤ b && b ≤ 0xEF) then
      match rest with
      | c :: c2 :: r2 =>
        (0x80 ≤ c && c ≤ 0xBF) && (0x80 ≤ c2 && c2 ≤ 0xBF) && validUtf8 r2
      | _ => false
    else if b == 0xED then
      match rest with
      | c :: c2 :: r2 =>
        (0x80 ≤ c && c ≤ 0x9F) && (0x80 ≤ c2 && c2 ≤ 0xBF) && validUtf8 r2
      | _ => false
    else if b == 0xF0 then
      match rest with
      | c :: c2 :: c3 :: r2 =>
        (0x90 ≤ c && c ≤ 0xBF) && (0x80 ≤ c2 && c2 ≤ 0xBF)
          && (0x80 ≤ c3 && c3 ≤ 0xBF) && validUtf8 r2
      | _ => false
    else if 0xF1 ≤ b && b ≤ 0xF3 then
      match rest with
      | c :: c2 :: c3 :: r2 =>
        (0x80 ≤ c && c ≤ 0xBF) && (0x80 ≤ c2 && c2 ≤ 0xBF)
          && (0x80 ≤ c3 && c3 ≤ 0xBF) && validUtf8 r2
      | _ => false
    else if b == 0xF4 then
      match rest with
      | c :: c2 :: c3 :: r2 =>
        (0x80 ≤ c && c ≤ 0x8F) && (0x80 ≤ c2 && c2 ≤ 0xBF)
          && (0x80 ≤ c3 && c3 ≤ 0xBF) && validUtf8 r2
      | _ => false
    else false

/-! Quota manager model. -/

structure ThrottleResult where
  firstViolation : Bool
  duration : Nat
deriving DecidableEq

structure QuotaEntry where
  used : Nat
  violated : Bool
deriving DecidableEq

/-- Quota table keyed by client id (the key none models a null client id). -/
abbrev QuotaMap : Type := List (Option (List Nat) × QuotaEntry)

def qlookup (m : QuotaMap) (k : Option (List Nat)) : QuotaEntry :=
  match m with
  | [] => ⟨0, false⟩
  | (k', e) :: rest => if k' = k then e else qlookup rest k

def qinsert (m : QuotaMap) (k : Option (List Nat)) (e : QuotaEntry) : QuotaMap :=
  match m with
  | [] => [(k, e)]
  | (k', e') :: rest =>
    if k' = k then (k, e) :: rest else (k', e') :: qinsert rest k e

/-- Modelled from the spec: quota_manager::record_tp_and_throttle is not
among the visible sources. Per the spec, the per-client bucket accumulates
throughput; on the first interval in which the client exceeds its
allowance the result carries firstViolation = true, on subsequent
violations in the same window firstViolation = false; the computed delay
dv is returned with every violation. -/
def recordAndThrottle (allowance dv : Nat) (m : QuotaMap)
    (k : Option (List Nat)) (bytes : Nat) : QuotaMap × ThrottleResult :=
  let e := qlookup m k
  let used := e.used + bytes
  if allowance < used then
    if e.violated then (qinsert m k ⟨used, true⟩, ⟨false, dv⟩)
    else (qinsert m k ⟨used, true⟩, ⟨true, dv⟩)
  else (qinsert m k ⟨used, e.violated⟩, ⟨false, 0⟩)

/-! The request pipeline. -/

/-- Observable actions of process_request, in program order: the 4-byte
size read, get_units on the admission semaphore, the header read, the
record_tp_and_throttle call, the optional throttle sleep, the payload read
and the hand-off to do_process. -/
inductive Event where
  | readSize
  | acquire (units : Nat)
  | readHeader
  | throttle (firstViolation : Bool) (duration : Nat)
  | sleep (duration : Nat)
  | readPayload (n : Nat)
  | dispatch (correlationId : Nat)
deriving DecidableEq

/-- Model of connection::process_size: at end of file the size is zero;
otherwise the 4 bytes are decoded big-endian and a negative int32 value
(raw value with the top bit set) is a framing error. -/
def process_size (s : ByteStream) (buf : List Nat) : Except KErr Nat :=
  if s.eofSeen then .ok 0
  else
    let raw := decode32 (buf.getD 0 0) (buf.getD 1 0) (buf.getD 2 0) (buf.getD 3 0)
    if 2 ^ 31 ≤ raw then .error .negativeSize else .ok raw

/-- Model of connection::read_header. Reads the 10-byte fixed header
(i16 api_key, i16 api_version, i32 correlation_id, i16 client_id_size),
then the client id. client_id_size = 0 yields an empty client id,
-1 yields no client id; any other negative value converts to a huge
size_t whose read drains the stream and fails with end of file. The
result pairs the outcome with the stream position at return or throw
time. Modelled from the spec for the raw_request_header field layout
(server.h is not among the visible sources; the spec fixes the wire
frame). -/
def read_header (s : ByteStream) : Except KErr RequestHeader × ByteStream :=
  let buf := (readExactly 10 s).1
  let s1 := (readExactly 10 s).2
  if s1.eofSeen then (.error .eofHeader, s1)
  else
    let cis := signed16 (decode16 (buf.getD 8 0) (buf.getD 9 0))
    let hdr : RequestHeader :=
      { apiKey := decode16 (buf.getD 0 0) (buf.getD 1 0),
        apiVersion := decode16 (buf.getD 2 0) (buf.getD 3 0),
        correlationId :=
          decode32 (buf.getD 4 0) (buf.getD 5 0) (buf.getD 6 0) (buf.getD 7 0),
        clientId := none }
    if cis = 0 then (.ok { hdr with clientId := some [] }, s1)
    else if cis = -1 then (.ok hdr, s1)
    else if cis < 0 then (.error .eofClientId, { data := [], eofSeen := true })
    else
      let cid := (readExactly cis.toNat s1).1
      let s2 := (readExactly cis.toNat s1).2
      if s2.eofSeen then (.error .eofClientId, s2)
      else if validUtf8 cid then (.ok { hdr with clientId := some cid }, s2)
      else (.error .invalidUtf8, s2)

/-- A request handed to do_process: its parsed header and payload bytes. -/
structure Dispatched where
  header : RequestHeader
  payload : List Nat
deriving DecidableEq

instance {ε α : Type} [DecidableEq ε] [DecidableEq α] :
    DecidableEq (Except ε α) := fun a b =>
  match a, b with
  | .ok x, .ok y =>
    if h : x = y then .isTrue (by rw [h]) else
      .isFalse (fun hh => by cases hh; exact h rfl)
  | .error x, .error y =>
    if h : x = y then .isTrue (by rw [h]) else
      .isFalse (fun hh => by cases hh; exact h rfl)
  | .ok _, .error _ => .isFalse (fun hh => by cases hh)
  | .error _, .ok _ => .isFalse (fun hh => by cases hh)

/-- Result of one process_request call: the observable events in order,
the outcome (ok none is the clean end-of-file return; an error models the
thrown exception), the stream position afterwards and the updated quota
table. -/
structure ReqResult where
  events : List Event
  outcome : Except KErr (Option Dispatched)
  post : ByteStream
  quota : QuotaMap
deriving DecidableEq

/-- Model of connection::process_request. Reads the 4-byte size (empty
read means clean end of file), decodes it, computes
mem_estimate = size * 2 + 8000 and throws before touching the semaphore
or the rest of the frame when mem_estimate >= max_request_size; otherwise
acquires the units, reads the header, consults the quota manager (the
throttle sleep is skipped exactly on a first violation), reads the
remaining size - 10 - clientIdLen payload bytes (size_t arithmetic, so a
deficit wraps to a huge count that drains the stream) and hands the
request to do_process. The waiters metric branch after get_units is
observational only and not modelled. -/
def process_request (maxReq allow dv : Nat) (qm : QuotaMap) (s : ByteStream) :
    ReqResult :=
  let buf := (readExactly 4 s).1
  let s1 := (readExactly 4 s).2
  if buf.isEmpty then ⟨[.readSize], .ok none, s1, qm⟩
  else
    match process_size s1 buf with
    | .error e => ⟨[.readSize], .error e, s1, qm⟩
    | .ok size =>
      if maxReq ≤ size * 2 + 8000 then ⟨[.readSize], .error .oversize, s1, qm⟩
      else
        match read_header s1 with
        | (.error e, s2) =>
          ⟨[.readSize, .acquire (size * 2 + 8000)], .error e, s2, qm⟩
        | (.ok hdr, s2) =>
          let qd := recordAndThrottle allow dv qm hdr.clientId size
          let readLen :=
            (((size : Int) - (10 + clientIdLen hdr)) % (2 ^ 64 : Int)).toNat
          ⟨[.readSize, .acquire (size * 2 + 8000), .readHeader,
              .throttle qd.2.firstViolation qd.2.duration]
             ++ (if qd.2.firstViolation then [] else [.sleep qd.2.duration])
             ++ [.readPayload readLen, .dispatch hdr.correlationId],
           .ok (some ⟨hdr, (readExactly readLen s2).1⟩),
           (readExactly readLen s2).2,
           qd.1⟩

/-! The per-connection loop (connection::process). -/

inductive LogLevel where
  | error
  | debug
deriving DecidableEq

/-- Model of the do_until loop in connection::process: until the read
stream reports end of file, run process_request; an exception is caught by
handle_exception, logged at error level, and the loop continues at the
current stream position. Returns the dispatched requests, the logged
errors (both in chronological order) and the final quota table. Fuel
bounds the recursion; every iteration either consumes bytes or sets the
eof flag, so data.length + 2 fuel always suffices. -/
def process_loop (maxReq allow dv : Nat) :
    Nat → QuotaMap → ByteStream → List Dispatched × List (LogLevel × KErr) × QuotaMap
  | 0, qm, _ => ([], [], qm)
  | fuel + 1, qm, s =>
    if s.eofSeen then ([], [], qm)
    else
      let r := process_request maxReq allow dv qm s
      match r.outcome with
      | .ok none => process_loop maxReq allow dv fuel r.quota r.post
      | .ok (some d) =>
        let rest := process_loop maxReq allow dv fuel r.quota r.post
        (d :: rest.1, rest.2.1, rest.2.2)
      | .error e =>
        let rest := process_loop maxReq allow dv fuel r.quota r.post
        (rest.1, (LogLevel.error, e) :: rest.2.1, rest.2.2)

/-- Outcome of running a whole connection. After the loop exits at end of
file, connection::process awaits the _ready_to_respond barrier and then
closes the write half; those two steps are recorded as flags. -/
structure ConnResult where
  dispatched : List Dispatched
  logged : List (LogLevel × KErr)
  awaitedBarrier : Bool
  closedWrite : Bool
  quota : QuotaMap
deriving DecidableEq

/-- Model of connection::process for a connection whose input holds
exactly the given bytes. -/
def connection_process (maxReq allow dv : Nat) (data : List Nat) : ConnResult :=
  let r := process_loop maxReq allow dv (data.length + 2) [] ⟨data, false⟩
  { dispatched := r.1, logged := r.2.1,
    awaitedBarrier := true, closedWrite := true, quota := r.2.2 }

/-! Response serialisation (connection::write_response). -/

/-- A dispatcher response: the payload as a sequence of iobuf chunks. -/
structure RespMsg where
  chunks : List (List Nat)
deriving DecidableEq

def respSize (r : RespMsg) : Nat := (r.chunks.map List.length).sum

/-- Model of connection::write_response: a raw_response_header holding
size = sizeof(correlation_type) + payload bytes and the correlation id,
both cpu_to_be 32-bit fields, followed by the payload chunks in order.
Modelled from the spec for the raw_response_header layout (two i32
fields; server.h is not among the visible sources). -/
def write_response (r : RespMsg) (correlationId : Nat) : List Nat :=
  be32 (4 + respSize r) ++ be32 correlationId ++ r.chunks.flatten

/-! The _ready_to_respond barrier chain (connection::do_process).

do_process captures the request's correlation id from its header, starts
the dispatch future, and rebinds the barrier:
  new barrier = dispatch.then_wrapped(on success: wait for the old
  barrier, then write_response, then count request_served; on failure:
  count request_processing_error and pass the old barrier through).
Consequently the write for acceptance index i runs exactly when the
dispatches of all indices <= i have completed, and writes run in index
order. The model runs the chain for a fixed list of accepted requests
(acceptance order = list order), where outcomes[i] holds the request's
header and the dispatcher's result (none models a failed dispatch), under
an arbitrary dispatch-completion schedule sigma. The written log records
each write_response call in the temporal order it ran; one entry is one
whole response, because write_response hands a single scattered_message
to one buffered write call before the barrier advances past it. -/

def dfltOutcome : RequestHeader × Option RespMsg := (⟨0, 0, 0, none⟩, none)

/-- Bytes written for acceptance index i, when its dispatch succeeds:
do_process passes ctx.header().correlation_id to write_response. -/
def writeOf (o : List (RequestHeader × Option RespMsg)) (i : Nat) :
    Option (Nat × List Nat) :=
  match o.getD i dfltOutcome with
  | (hdr, some r) => some (i, write_response r hdr.correlationId)
  | (_, none) => none

/-- Does index i hold a successfully dispatched request. -/
def okIdx (o : List (RequestHeader × Option RespMsg)) (i : Nat) : Bool :=
  (writeOf o i).isSome

/-- The response writes for indices below k, in acceptance order. -/
def orderedWrites (o : List (RequestHeader × Option RespMsg)) (k : Nat) :
    List (Nat × List Nat) :=
  (List.range k).filterMap (writeOf o)

/-- How many of the indices below k hold successful dispatches. -/
def countOk (o : List (RequestHeader × Option RespMsg)) (k : Nat) : Nat :=
  ((List.range k).filter (okIdx o)).length

/-- State of the barrier chain: which dispatches have completed, the
barrier position (first index whose continuation has not run), the log of
write_response calls in temporal order, and the two probe counters
incremented by do_process. -/
structure ChainState where
  completed : List Nat
  next : Nat
  written : List (Nat × List Nat)
  errors : Nat
  served : Nat
deriving DecidableEq

/-- Run the pending barrier continuations: starting at index next, as long
as that index's dispatch has completed, its continuation runs now — a
successful dispatch writes its response (and counts request_served), a
failed one just passes the barrier along. Returns the writes performed,
the number served and the new barrier position. -/
def chainFlush (o : List (RequestHeader × Option RespMsg))
    (completed : List Nat) (next : Nat) : List (Nat × List Nat) × Nat × Nat :=
  if h : next < o.length ∧ next ∈ completed then
    match o.getD next dfltOutcome with
    | (hdr, some r) =>
      ((next, write_response r hdr.correlationId)
          :: (chainFlush o completed (next + 1)).1,
       (chainFlush o completed (next + 1)).2.1 + 1,
       (chainFlush o completed (next + 1)).2.2)
    | (_, none) => chainFlush o completed (next + 1)
  else ([], 0, next)
termination_by o.length - next
decreasing_by
  simp_wf
  omega

/-- The dispatch of acceptance index i completes: a failed dispatch counts
request_processing_error immediately (the catch branch of then_wrapped),
and every barrier continuation that is now unblocked runs. -/
def chainStep (o : List (RequestHeader × Option RespMsg))
    (st : ChainState) (i : Nat) : ChainState :=
  if i < o.length then
    { completed := i :: st.completed,
      next := (chainFlush o (i :: st.completed) st.next).2.2,
      written := st.written ++ (chainFlush o (i :: st.completed) st.next).1,
      errors := st.errors
        + (match o.getD i dfltOutcome with
           | (_, none) => 1
           | (_, some _) => 0),
      served := st.served + (chainFlush o (i :: st.completed) st.next).2.1 }
  else st

def chainInit : ChainState :=
  { completed := [], next := 0, written := [], errors := 0, served := 0 }

/-- Run the whole chain under dispatch-completion schedule sigma. -/
def chainRun (o : List (RequestHeader × Option RespMsg)) (sigma : List Nat) :
    ChainState :=
  sigma.foldl (chainStep o) chainInit

/-- Characterisation of the barrier position for a set of completed
dispatches: every index below it has completed, and it has not itself
completed unless it is past the end. -/
def IsFrontier (n : Nat) (completed : List Nat) (k : Nat) : Prop :=
  k ≤ n ∧ (∀ j, j < k → j ∈ completed) ∧ (k < n → k ∉ completed)

/-- Invariant of the chain after the dispatches in done have completed. -/
def ChainInv (o : List (RequestHeader × Option RespMsg)) (done : List Nat)
    (st : ChainState) : Prop :=
  (∀ j, j ∈ st.completed ↔ j ∈ done) ∧
  IsFrontier o.length st.completed st.next ∧
  st.written = orderedWrites o st.next ∧
  st.errors = (done.filter (fun i => !okIdx o i)).length ∧
  st.served = countOk o st.next

/-! The admission semaphore (_memory_available, capacity
_max_request_size). get_units(sem, mem_estimate) blocks until the units
are free, and the units object releases them when the request is done. -/

structure SemState where
  avail : Nat
  held : List (Nat × Nat)
deriving DecidableEq

inductive SemStep : SemState → SemState → Prop where
  | acquire (id n : Nat) (st : SemState) :
      n ≤ st.avail → SemStep st ⟨st.avail - n, (id, n) :: st.held⟩
  | release (id n : Nat) (st : SemState) (pre post : List (Nat × Nat)) :
      st.held = pre ++ (id, n) :: post →
      SemStep st ⟨st.avail + n, pre ++ post⟩

/-- States the admission semaphore can reach from its initial state of cap
free units and nothing held. -/
inductive SemReach (cap : Nat) : SemState → Prop where
  | init : SemReach cap ⟨cap, []⟩
  | step {st st' : SemState} : SemReach cap st → SemStep st st' → SemReach cap st'

/-! The heartbeat manager group registry: a boost flat_set of consensus
pointers ordered by consensus_ptr_by_group_id, which compares
meta().group only. -/

/-- A registered consensus group handle: its raft group id plus an opaque
payload standing for the rest of the consensus object, so that two
distinct handles can share a group id. -/
structure ConsensusGroup where
  gid : Nat
  payload : Nat
deriving DecidableEq

/-- Modelled from the spec: heartbeat_manager::register_group inserts into
_consensus_groups (its body is not among the visible sources; the spec
says the insert is idempotent by groupId). This is flat_set insert under
the consensus_ptr_by_group_id ordering: keep the list sorted by gid and
leave it unchanged when an element with the same gid is present. -/
def hm_insert (g : ConsensusGroup) : List ConsensusGroup → List ConsensusGroup
  | [] => [g]
  | x :: xs =>
    if g.gid < x.gid then g :: x :: xs
    else if x.gid < g.gid then x :: hm_insert g xs
    else x :: xs

/-- Modelled from the spec: heartbeat_manager::deregister_group removes
the group with the given id from _consensus_groups. -/
def hm_erase (id : Nat) : List ConsensusGroup → List ConsensusGroup
  | [] => []
  | x :: xs => if x.gid = id then xs else x :: hm_erase id xs

inductive HMOp where
  | reg (g : ConsensusGroup)
  | dereg (id : Nat)
deriving DecidableEq

/-- The registry contents after a sequence of register and deregister
calls, starting from the empty set. -/
def hm_apply (ops : List HMOp) : List ConsensusGroup :=
  ops.foldl
    (fun s op =>
      match op with
      | .reg g => hm_insert g s
      | .dereg i => hm_erase i s)
    []

/-! Arithmetic helper lemmas. -/

theorem decode32_digits (x : Nat) (h : x < 2 ^ 32) :
    decode32 (x / 2 ^ 24 % 256) (x / 2 ^ 16 % 256) (x / 2 ^ 8 % 256) (x % 256)
      = x := by
  unfold decode32
  have h1 : x / 2 ^ 8 / 2 ^ 8 = x / 2 ^ 16 := by
    rw [Nat.div_div_eq_div_mul]
    norm_num
  have h2 : x / 2 ^ 16 / 2 ^ 8 = x / 2 ^ 24 := by
    rw [Nat.div_div_eq_div_mul]
    norm_num
  have e0 := Nat.div_add_mod x (2 ^ 8)
  have e1 := Nat.div_add_mod (x / 2 ^ 8) (2 ^ 8)
  have e2 := Nat.div_add_mod (x / 2 ^ 16) (2 ^ 8)
  rw [h1] at e1
  rw [h2] at e2
  have m0 : x % 2 ^ 8 < 2 ^ 8 := Nat.mod_lt _ (by norm_num)
  have m1 : x / 2 ^ 8 % 2 ^ 8 < 2 ^ 8 := Nat.mod_lt _ (by norm_num)
  have m2 : x / 2 ^ 16 % 2 ^ 8 < 2 ^ 8 := Nat.mod_lt _ (by norm_num)
  have q3 : x / 2 ^ 24 < 256 := by
    rw [Nat.div_lt_iff_lt_mul (by norm_num : 0 < 2 ^ 24)]
    norm_num at h ⊢
    omega
  have q3m : x / 2 ^ 24 % 256 = x / 2 ^ 24 := Nat.mod_eq_of_lt q3
  rw [q3m]
  norm_num at e0 e1 e2 m0 m1 m2 ⊢
  omega

theorem be32_cons (x : Nat) (rest : List Nat) :
    be32 x ++ rest
      = x / 2 ^ 24 % 256 :: x / 2 ^ 16 % 256 :: x / 2 ^ 8 % 256 :: x % 256
          :: rest := by
  simp [be32]

/-! Lemmas about write_response (claim C2). -/

/-- C2: for a request whose dispatch succeeds with payload of n bytes and
correlation id X (do_process passes ctx.header().correlation_id to
write_response), the bytes written are a 4-byte big-endian size field
decoding to n + 4, then the 4-byte big-endian correlation id X, then the
n payload bytes in chunk order; 8 + n bytes in total. -/
theorem c2_response_wire_format (r : RespMsg) (X : Nat)
    (h1 : respSize r + 4 < 2 ^ 31) (h2 : X < 2 ^ 32) :
    write_response r X = be32 (respSize r + 4) ++ be32 X ++ r.chunks.flatten ∧
    (write_response r X).length = 8 + respSize r ∧
    decode32 ((write_response r X).getD 0 0) ((write_response r X).getD 1 0)
        ((write_response r X).getD 2 0) ((write_response r X).getD 3 0)
      = respSize r + 4 ∧
    decode32 ((write_response r X).getD 4 0) ((write_response r X).getD 5 0)
        ((write_response r X).getD 6 0) ((write_response r X).getD 7 0) = X ∧
    (write_response r X).drop 8 = r.chunks.flatten := by
  have hw : write_response r X
      = be32 (respSize r + 4) ++ be32 X ++ r.chunks.flatten := by
    unfold write_response
    rw [Nat.add_comm 4 (respSize r)]
  refine ⟨hw, ?_, ?_, ?_, ?_⟩ <;>
    rw [hw, List.append_assoc, be32_cons, be32_cons]
  · simp [List.length_flatten, respSize]
    omega
  · simp only [List.getD_cons_zero, List.getD_cons_succ]
    exact decode32_digits _ (by omega)
  · simp only [List.getD_cons_zero, List.getD_cons_succ]
    exact decode32_digits _ h2
  · simp [List.drop]

/-- C2 witness at a concrete response and correlation id. -/
theorem c2_response_wire_format_witness :
    write_response ⟨[[65, 66], [67]]⟩ 7
        = be32 (respSize ⟨[[65, 66], [67]]⟩ + 4) ++ be32 7
            ++ ([[65, 66], [67]] : List (List Nat)).flatten ∧
    (write_response ⟨[[65, 66], [67]]⟩ 7).length
        = 8 + respSize ⟨[[65, 66], [67]]⟩ ∧
    decode32 ((write_response ⟨[[65, 66], [67]]⟩ 7).getD 0 0)
        ((write_response ⟨[[65, 66], [67]]⟩ 7).getD 1 0)
        ((write_response ⟨[[65, 66], [67]]⟩ 7).getD 2 0)
        ((write_response ⟨[[65, 66], [67]]⟩ 7).getD 3 0)
      = respSize ⟨[[65, 66], [67]]⟩ + 4 ∧
    decode32 ((write_response ⟨[[65, 66], [67]]⟩ 7).getD 4 0)
        ((write_response ⟨[[65, 66], [67]]⟩ 7).getD 5 0)
        ((write_response ⟨[[65, 66], [67]]⟩ 7).getD 6 0)
        ((write_response ⟨[[65, 66], [67]]⟩ 7).getD 7 0) = 7 ∧
    (write_response ⟨[[65, 66], [67]]⟩ 7).drop 8
        = ([[65, 66], [67]] : List (List Nat)).flatten :=
  c2_response_wire_format ⟨[[65, 66], [67]]⟩ 7 (by decide) (by decide)

/-! Lemmas about the oversize check (claims C4 and C5). -/

/-- C4: when the decoded size field s makes memEstimate = s * 2 + 8000
reach maxRequestMemory, process_request throws the protocol error having
consumed exactly the 4 size-prefix bytes: no semaphore units are acquired
(no acquire event), no further byte is read (post stream = rest) and the
quota table is untouched. -/
theorem c4_oversize_reject (mq al dv : Nat) (qm : QuotaMap)
    (a b c d : Nat) (rest : List Nat)
    (h1 : decode32 a b c d < 2 ^ 31)
    (h2 : mq ≤ decode32 a b c d * 2 + 8000) :
    process_request mq al dv qm ⟨a :: b :: c :: d :: rest, false⟩
      = ⟨[.readSize], .error .oversize, ⟨rest, false⟩, qm⟩ := by
  have h4 : ¬ (rest.length + 1 + 1 + 1 + 1 < 4) := by omega
  have hneg : ¬ ((2147483648 : Nat) ≤ decode32 a b c d) := by omega
  simp [process_request, readExactly, process_size, List.getD, h4, hneg, h2]

/-- C4 witness: a 0-byte frame against a 8000-byte memory budget is
rejected after only the size prefix. -/
theorem c4_oversize_reject_witness :
    process_request 8000 0 0 [] ⟨[0, 0, 0, 0], false⟩
      = ⟨[.readSize], .error .oversize, ⟨[], false⟩, []⟩ :=
  c4_oversize_reject 8000 0 0 [] 0 0 0 0 [] (by decide) (by decide)

/-- The header reader never reports the oversize error: its failure modes
are eofHeader, eofClientId and invalidUtf8. -/
theorem read_header_ne_oversize (s : ByteStream) :
    (read_header s).1 ≠ Except.error KErr.oversize := by
  simp only [read_header]
  repeat' split
  all_goals simp

/-- A frame admitted by the memEstimate check never produces the oversize
error: whatever the header reader does next, the outcome differs. -/
theorem process_request_not_oversize (mq al dv : Nat) (qm : QuotaMap)
    (a b c d : Nat) (rest : List Nat)
    (h1 : decode32 a b c d < 2 ^ 31)
    (h2 : decode32 a b c d * 2 + 8000 < mq) :
    (process_request mq al dv qm ⟨a :: b :: c :: d :: rest, false⟩).outcome
      ≠ Except.error KErr.oversize := by
  have h4 : ¬ (rest.length + 1 + 1 + 1 + 1 < 4) := by omega
  have hneg : ¬ ((2147483648 : Nat) ≤ decode32 a b c d) := by omega
  have hno : ¬ (mq ≤ decode32 a b c d * 2 + 8000) := by omega
  simp [process_request, readExactly, process_size, List.getD, h4, hneg, hno]
  rcases hrh : read_header ⟨rest, false⟩ with ⟨res, s2⟩
  have hne := read_header_ne_oversize ⟨rest, false⟩
  rw [hrh] at hne
  rcases res with e | hdr
  · simp at hne
    simp [hrh, hne]
  · simp [hrh]

/-- C5 counterexample: with maxRequestMemory = 100000, a request frame
whose size field is exactly 100000 / 2 = 50000 is rejected by the
memEstimate check (50000 * 2 + 8000 = 108000 >= 100000), refuting the
claim that such a frame is admitted. -/
theorem c5_counterexample :
    (process_request 100000 0 0 [] ⟨be32 50000, false⟩).outcome
      = Except.error KErr.oversize := by
  have h := c4_oversize_reject 100000 0 0 [] 0 0 195 80 []
    (by decide) (by decide)
  have hs : (be32 50000 : List Nat) = [0, 0, 195, 80] := by decide
  rw [hs]
  rw [h]

/-- C5 amended: a frame whose size field is exactly maxRequestMemory / 2
is always rejected by the memEstimate check, because
(M / 2) * 2 + 8000 >= M for every M; a size s is admitted past that check
precisely when s * 2 + 8000 < M. -/
theorem c5_half_boundary (M al dv : Nat) (qm : QuotaMap) (rest : List Nat)
    (hM : M < 2 ^ 32) :
    (process_request M al dv qm ⟨be32 (M / 2) ++ rest, false⟩).outcome
      = Except.error KErr.oversize ∧
    (∀ s : Nat, s < 2 ^ 31 →
      ((process_request M al dv qm ⟨be32 s ++ rest, false⟩).outcome
          = Except.error KErr.oversize ↔ M ≤ s * 2 + 8000)) := by
  have key : ∀ s : Nat, s < 2 ^ 31 →
      ((process_request M al dv qm ⟨be32 s ++ rest, false⟩).outcome
          = Except.error KErr.oversize ↔ M ≤ s * 2 + 8000) := by
    intro s hs
    rw [be32_cons]
    have hdec : decode32 (s / 2 ^ 24 % 256) (s / 2 ^ 16 % 256)
        (s / 2 ^ 8 % 256) (s % 256) = s :=
      decode32_digits s (by omega)
    constructor
    · intro hout
      by_contra hlt
      push_neg at hlt
      exact process_request_not_oversize M al dv qm _ _ _ _ rest
        (by rw [hdec]; omega) (by rw [hdec]; omega) hout
    · intro hover
      rw [c4_oversize_reject M al dv qm _ _ _ _ rest
        (by rw [hdec]; omega) (by rw [hdec]; omega)]
  refine ⟨?_, key⟩
  have half : M / 2 < 2 ^ 31 := by omega
  have hge : M ≤ (M / 2) * 2 + 8000 := by omega
  exact (key (M / 2) half).mpr hge

/-- C5 amended witness at maxRequestMemory = 100000. -/
theorem c5_half_boundary_witness :
    (process_request 100000 3 4 [] ⟨be32 (100000 / 2) ++ [9], false⟩).outcome
      = Except.error KErr.oversize ∧
    ((process_request 100000 3 4 [] ⟨be32 45999 ++ [9], false⟩).outcome
        = Except.error KErr.oversize ↔ (100000 : Nat) ≤ 45999 * 2 + 8000) :=
  ⟨(c5_half_boundary 100000 3 4 [] [9] (by decide)).1,
   (c5_half_boundary 100000 3 4 [] [9] (by decide)).2 45999 (by decide)⟩

/-! Claim C10: end of file at a frame boundary is a clean termination. -/

/-- C10: when the connection is at end of file exactly at a frame
boundary, the 4-byte size read yields an empty buffer and process_request
returns cleanly (outcome ok none, no error); the loop exits as soon as
the stream reports end of file, performing no further work; and
connection::process then awaits the response barrier and closes the write
half. -/
theorem c10_clean_eof (mq al dv : Nat) (qm : QuotaMap) :
    process_request mq al dv qm ⟨[], false⟩
        = ⟨[.readSize], .ok none, ⟨[], true⟩, qm⟩ ∧
    (∀ (fuel : Nat) (s : ByteStream) (qm' : QuotaMap), s.eofSeen = true →
      process_loop mq al dv (fuel + 1) qm' s = ([], [], qm')) ∧
    (∀ data : List Nat,
      (connection_process mq al dv data).awaitedBarrier = true ∧
      (connection_process mq al dv data).closedWrite = true) := by
  refine ⟨rfl, ?_, ?_⟩
  · intro fuel s qm' h
    simp [process_loop, h]
  · intro data
    exact ⟨rfl, rfl⟩

/-- C10 witness: loop exit on a stream whose eof flag is set. -/
theorem c10_clean_eof_witness :
    process_loop 100 1 2 1 [] ⟨[5], true⟩ = ([], [], []) :=
  (c10_clean_eof 100 1 2 []).2.1 0 ⟨[5], true⟩ [] rfl

/-! Claim C6: fate of the connection after a framing error. -/

/-- C6 counterexample: on the byte stream holding a frame with a negative
size field (0xFFFFFFFF) followed by a well-formed 13-byte request with
correlation id 7, the connection logs the negative-size framing error at
error level (not debug) and then processes and dispatches the following
request — the framing error is not fatal to the connection, refuting the
claim that no further requests are processed. -/
theorem c6_counterexample :
    (connection_process 10000 100 0
        [255, 255, 255, 255,
         0, 0, 0, 13, 0, 0, 0, 0, 0, 0, 0, 7, 255, 255, 1, 2, 3]).dispatched
      = [⟨⟨0, 0, 7, none⟩, [1, 2, 3]⟩] ∧
    (connection_process 10000 100 0
        [255, 255, 255, 255,
         0, 0, 0, 13, 0, 0, 0, 0, 0, 0, 0, 7, 255, 255, 1, 2, 3]).logged
      = [(LogLevel.error, KErr.negativeSize)] := by
  constructor <;> decide

/-- C6 amended: a framing error thrown by process_request is caught by the
per-connection loop's handle_exception, logged at error level, and the
loop continues at the stream position where the exception left off; only
when the stream has reached end of file does the loop exit (after which
the barrier is awaited and the write half closed — see c10). -/
theorem c6_framing_error_nonfatal (mq al dv fuel : Nat) (qm : QuotaMap)
    (s : ByteStream) (e : KErr) (heof : s.eofSeen = false)
    (herr : (process_request mq al dv qm s).outcome = .error e) :
    process_loop mq al dv (fuel + 1) qm s
      = ((process_loop mq al dv fuel (process_request mq al dv qm s).quota
            (process_request mq al dv qm s).post).1,
         (LogLevel.error, e)
           :: (process_loop mq al dv fuel (process_request mq al dv qm s).quota
                 (process_request mq al dv qm s).post).2.1,
         (process_loop mq al dv fuel (process_request mq al dv qm s).quota
            (process_request mq al dv qm s).post).2.2) := by
  simp [process_loop, heof, herr]

/-- C6 amended witness: one loop step over a negative-size frame logs at
error level and hands the remainder of the stream to the next iteration. -/
theorem c6_framing_error_nonfatal_witness :
    process_loop 10000 100 0 2 [] ⟨[255, 255, 255, 255, 9], false⟩
      = ((process_loop 10000 100 0 1
            (process_request 10000 100 0 [] ⟨[255, 255, 255, 255, 9], false⟩).quota
            (process_request 10000 100 0 [] ⟨[255, 255, 255, 255, 9], false⟩).post).1,
         (LogLevel.error, KErr.negativeSize)
           :: (process_loop 10000 100 0 1
                 (process_request 10000 100 0 [] ⟨[255, 255, 255, 255, 9], false⟩).quota
                 (process_request 10000 100 0 [] ⟨[255, 255, 255, 255, 9], false⟩).post).2.1,
         (process_loop 10000 100 0 1
            (process_request 10000 100 0 [] ⟨[255, 255, 255, 255, 9], false⟩).quota
            (process_request 10000 100 0 [] ⟨[255, 255, 255, 255, 9], false⟩).post).2.2) :=
  c6_framing_error_nonfatal 10000 100 0 1 [] ⟨[255, 255, 255, 255, 9], false⟩
    KErr.negativeSize rfl (by decide)

/-! Path analysis of process_request, used for the throttling and
admission claims. -/

/-- Every run of process_request produces one of three event shapes: only
the size read (clean EOF or an error before get_units), size read plus
semaphore acquisition (header errors), or the full pipeline ending in a
dispatch, with the throttle sleep exactly when the quota result is not a
first violation. -/
theorem process_request_cases (mq al dv : Nat) (qm : QuotaMap)
    (s : ByteStream) :
    (process_request mq al dv qm s).events = [.readSize] ∨
    (∃ m, (process_request mq al dv qm s).events = [.readSize, .acquire m]) ∨
    (∃ sz hdr k,
      (process_request mq al dv qm s).events
        = [.readSize, .acquire (sz * 2 + 8000), Event.readHeader,
            .throttle (recordAndThrottle al dv qm hdr.clientId sz).2.firstViolation
              (recordAndThrottle al dv qm hdr.clientId sz).2.duration]
          ++ (if (recordAndThrottle al dv qm hdr.clientId sz).2.firstViolation
              then []
              else [.sleep (recordAndThrottle al dv qm hdr.clientId sz).2.duration])
          ++ [.readPayload k, .dispatch hdr.correlationId] ∧
      ∃ pl, (process_request mq al dv qm s).outcome = .ok (some ⟨hdr, pl⟩)) := by
  simp only [process_request]
  split
  · exact Or.inl rfl
  · split
    · exact Or.inl rfl
    · split
      · exact Or.inl rfl
      · split
        · exact Or.inr (Or.inl ⟨_, rfl⟩)
        · exact Or.inr (Or.inr ⟨_, _, _, rfl, _, rfl⟩)

/-! Claim C7: quota throttling. -/

theorem qlookup_qinsert (m : QuotaMap) (k : Option (List Nat))
    (e : QuotaEntry) : qlookup (qinsert m k e) k = e := by
  induction m with
  | nil => simp [qinsert, qlookup]
  | cons he tl ih =>
    rcases he with ⟨k', e'⟩
    by_cases hk : k' = k <;> simp [qinsert, qlookup, hk, ih]

/-- C7: whenever a client's window is not yet marked violated — whatever
throughput was already recorded below the allowance — the call that
crosses the allowance returns firstViolation = true with the computed
duration; any later call in a window already marked violated returns
firstViolation = false with the same computed duration; every violation
marks the window; and the server sleeps exactly when firstViolation is
false: a dispatching run whose throttle result is a first violation has
no sleep event, while one whose result is not carries a sleep for the
returned duration placed after the header read and before the payload
read and the dispatch. -/
theorem c7_throttle :
    (∀ al dv (qm : QuotaMap) k b, (qlookup qm k).violated = false →
      al < (qlookup qm k).used + b →
      (recordAndThrottle al dv qm k b).2 = ⟨true, dv⟩) ∧
    (∀ al dv (qm : QuotaMap) k b, (qlookup qm k).violated = true →
      (recordAndThrottle al dv qm k b).2.firstViolation = false) ∧
    (∀ al dv (qm : QuotaMap) k b, al < (qlookup qm k).used + b →
      qlookup (recordAndThrottle al dv qm k b).1 k
        = ⟨(qlookup qm k).used + b, true⟩) ∧
    (∀ mq al dv (qm : QuotaMap) (s : ByteStream) (fv : Bool) (d : Nat),
      Event.throttle fv d ∈ (process_request mq al dv qm s).events →
      ((fv = true →
          ∀ d', Event.sleep d' ∉ (process_request mq al dv qm s).events) ∧
       (fv = false → ∃ m k c,
          (process_request mq al dv qm s).events
            = [.readSize, .acquire m, Event.readHeader, .throttle false d,
               .sleep d, .readPayload k, .dispatch c]))) := by
  refine ⟨?_, ?_, ?_, ?_⟩
  · intro al dv qm k b hv h
    simp [recordAndThrottle, hv, h]
  · intro al dv qm k b hv
    simp only [recordAndThrottle, hv]
    split <;> rfl
  · intro al dv qm k b h
    simp only [recordAndThrottle, if_pos h]
    split <;> exact qlookup_qinsert qm k _
  · intro mq al dv qm s fv d hmem
    rcases process_request_cases mq al dv qm s with h | ⟨m, h⟩ | ⟨sz, hdr, k, h, _, _⟩
    · rw [h] at hmem
      simp at hmem
    · rw [h] at hmem
      simp at hmem
    · rcases hfv : (recordAndThrottle al dv qm hdr.clientId sz).2.firstViolation
      · rw [hfv] at h
        simp only [if_false, Bool.false_eq_true, ite_false] at h
        rw [h] at hmem
        simp at hmem
        constructor
        · intro htrue
          rw [htrue] at hmem
          simp at hmem
        · intro _
          refine ⟨sz * 2 + 8000, k, hdr.correlationId, ?_⟩
          rw [h, hmem.2]
          rfl
      · rw [hfv] at h
        simp only [if_true, ite_true] at h
        rw [h] at hmem
        simp at hmem
        constructor
        · intro _
          intro d'
          rw [h]
          simp
        · intro hfalse
          rw [hfalse] at hmem
          simp at hmem

/-- C7 witness: a concrete first violation on a window already holding 8
bytes of sub-allowance usage (used 8, not violated, allowance 10, request
of 5 bytes crosses it) returns firstViolation = true, and a concrete
subsequent violation's run carries the sleep before payload read and
dispatch. -/
theorem c7_throttle_witness :
    (recordAndThrottle 10 5 [(some [116], ⟨8, false⟩)] (some [116]) 5).2
        = ⟨true, 5⟩ ∧
    (∃ m k c,
      (process_request 10000 10 5 [(some [116], ⟨20, true⟩)]
          ⟨[0, 0, 0, 14, 0, 0, 0, 0, 0, 0, 0, 9, 0, 1, 116, 1, 2, 3],
            false⟩).events
        = [.readSize, .acquire m, Event.readHeader, .throttle false 5,
           .sleep 5, .readPayload k, .dispatch c]) :=
  ⟨c7_throttle.1 10 5 [(some [116], ⟨8, false⟩)] (some [116]) 5
      (by decide) (by decide),
   (c7_throttle.2.2.2 10000 10 5 [(some [116], ⟨20, true⟩)]
      ⟨[0, 0, 0, 14, 0, 0, 0, 0, 0, 0, 0, 9, 0, 1, 116, 1, 2, 3], false⟩
      false 5 (by decide)).2 rfl⟩

/-! Claim C8: bounded admission memory. -/

theorem sem_reach_inv (cap : Nat) (st : SemState) (h : SemReach cap st) :
    (st.held.map Prod.snd).sum + st.avail = cap := by
  induction h with
  | init => simp
  | step hr hs ih =>
    cases hs with
    | acquire id n st hle =>
      simp only [List.map_cons, List.sum_cons] at *
      omega
    | release id n st pre post heq =>
      rw [heq] at ih
      simp only [List.map_append, List.sum_append, List.map_cons,
        List.sum_cons] at *
      omega

/-- C8: in every state the admission semaphore (capacity maxRequestMemory,
the initial avail) can reach, the units held by live requests sum to at
most the capacity; and every request path that reaches dispatch acquired
its memEstimate units (acquire sz * 2 + 8000) right after the size read
and before the header read and the dispatch. -/
theorem c8_admission_invariant :
    (∀ (cap : Nat) (st : SemState), SemReach cap st →
      (st.held.map Prod.snd).sum ≤ cap) ∧
    (∀ mq al dv (qm : QuotaMap) (s : ByteStream) (c : Nat),
      Event.dispatch c ∈ (process_request mq al dv qm s).events →
      ∃ sz t,
        (process_request mq al dv qm s).events
          = Event.readSize :: Event.acquire (sz * 2 + 8000)
              :: Event.readHeader :: t ∧
        Event.dispatch c ∈ t) := by
  constructor
  · intro cap st h
    have := sem_reach_inv cap st h
    omega
  · intro mq al dv qm s c hmem
    rcases process_request_cases mq al dv qm s with h | ⟨m, h⟩ | ⟨sz, hdr, k, h, _, _⟩
    · rw [h] at hmem
      simp at hmem
    · rw [h] at hmem
      simp at hmem
    · refine ⟨sz, _, by rw [h]; rfl, ?_⟩
      rw [h] at hmem
      simp at hmem
      subst hmem
      exact List.mem_cons_of_mem _
        (List.mem_append_right _ (by simp))

/-- C8 witness: a concrete reachable semaphore state obeys the bound, and
a concrete dispatching run shows the acquire-before-header shape. -/
theorem c8_admission_invariant_witness :
    (((⟨60, [(0, 40)]⟩ : SemState).held.map Prod.snd).sum ≤ 100) ∧
    (∃ sz t,
      (process_request 10000 1000 5 []
          ⟨[0, 0, 0, 14, 0, 0, 0, 0, 0, 0, 0, 9, 0, 1, 116, 1, 2, 3],
            false⟩).events
        = Event.readSize :: Event.acquire (sz * 2 + 8000)
            :: Event.readHeader :: t ∧
      Event.dispatch 9 ∈ t) :=
  ⟨c8_admission_invariant.1 100 ⟨60, [(0, 40)]⟩
     (SemReach.step SemReach.init
        (SemStep.acquire 0 40 ⟨100, []⟩ (by norm_num))),
   c8_admission_invariant.2 10000 1000 5 []
     ⟨[0, 0, 0, 14, 0, 0, 0, 0, 0, 0, 0, 9, 0, 1, 116, 1, 2, 3], false⟩ 9
     (by decide)⟩

/-! Claim C9: the heartbeat manager group registry. -/

theorem hm_insert_mem {y g : ConsensusGroup} {s : List ConsensusGroup}
    (h : y ∈ hm_insert g s) : y = g ∨ y ∈ s := by
  induction s with
  | nil => simpa [hm_insert] using h
  | cons x xs ih =>
    by_cases h1 : g.gid < x.gid
    · simp only [hm_insert, if_pos h1, List.mem_cons] at h
      rcases h with h | h | h
      · exact Or.inl h
      · exact Or.inr (by simp [h])
      · exact Or.inr (List.mem_cons_of_mem _ h)
    · by_cases h2 : x.gid < g.gid
      · simp only [hm_insert, if_neg h1, if_pos h2, List.mem_cons] at h
        rcases h with h | h
        · exact Or.inr (by simp [h])
        · rcases ih h with h' | h'
          · exact Or.inl h'
          · exact Or.inr (List.mem_cons_of_mem _ h')
      · simp only [hm_insert, if_neg h1, if_neg h2] at h
        exact Or.inr h

theorem hm_insert_pairwise (g : ConsensusGroup) (s : List ConsensusGroup)
    (h : List.Pairwise (fun a b => a.gid < b.gid) s) :
    List.Pairwise (fun a b => a.gid < b.gid) (hm_insert g s) := by
  induction s with
  | nil => simp [hm_insert]
  | cons x xs ih =>
    rcases List.pairwise_cons.mp h with ⟨hx, hxs⟩
    by_cases h1 : g.gid < x.gid
    · simp only [hm_insert, if_pos h1]
      refine List.pairwise_cons.mpr ⟨?_, h⟩
      intro y hy
      rcases List.mem_cons.mp hy with rfl | hy'
      · exact h1
      · exact lt_trans h1 (hx y hy')
    · by_cases h2 : x.gid < g.gid
      · simp only [hm_insert, if_neg h1, if_pos h2]
        refine List.pairwise_cons.mpr ⟨?_, ih hxs⟩
        intro y hy
        rcases hm_insert_mem hy with rfl | hy'
        · exact h2
        · exact hx y hy'
      · simp only [hm_insert, if_neg h1, if_neg h2]
        exact h

theorem hm_erase_sublist (id : Nat) (s : List ConsensusGroup) :
    (hm_erase id s).Sublist s := by
  induction s with
  | nil => simp [hm_erase]
  | cons x xs ih =>
    by_cases hx : x.gid = id
    · simp only [hm_erase, if_pos hx]
      exact List.sublist_cons_self x xs
    · simp only [hm_erase, if_neg hx]
      exact ih.cons₂ x

theorem hm_apply_pairwise (ops : List HMOp) :
    List.Pairwise (fun a b => a.gid < b.gid) (hm_apply ops) := by
  suffices h : ∀ (ops : List HMOp) (s : List ConsensusGroup),
      List.Pairwise (fun a b => a.gid < b.gid) s →
      List.Pairwise (fun a b => a.gid < b.gid)
        (ops.foldl
          (fun s op =>
            match op with
            | .reg g => hm_insert g s
            | .dereg i => hm_erase i s)
          s) by
    exact h ops [] (by simp)
  intro ops
  induction ops with
  | nil => intro s hs; simpa using hs
  | cons op ops ih =>
    intro s hs
    rcases op with g | i
    · exact ih _ (hm_insert_pairwise g s hs)
    · exact ih _ (List.Pairwise.sublist (hm_erase_sublist i s) hs)

theorem pairwise_filter_gid_le_one (l : List ConsensusGroup)
    (hp : List.Pairwise (fun a b => a.gid < b.gid) l) (id : Nat) :
    (l.filter (fun x => x.gid == id)).length ≤ 1 := by
  induction l with
  | nil => simp
  | cons x xs ih =>
    rcases List.pairwise_cons.mp hp with ⟨hx, hxs⟩
    by_cases hid : x.gid = id
    · have hnone : xs.filter (fun y => y.gid == id) = [] := by
        rw [List.filter_eq_nil_iff]
        intro y hy
        have : x.gid < y.gid := hx y hy
        simp only [beq_iff_eq]
        omega
      simp [List.filter_cons, hid, hnone]
    · have : (x.gid == id) = false := by simp [hid]
      simp only [List.filter_cons, this, cond_false]
      exact ih hxs

theorem hm_insert_of_mem (g : ConsensusGroup) (s : List ConsensusGroup)
    (hp : List.Pairwise (fun a b => a.gid < b.gid) s)
    (hmem : ∃ x ∈ s, x.gid = g.gid) : hm_insert g s = s := by
  induction s with
  | nil => simp at hmem
  | cons x xs ih =>
    rcases List.pairwise_cons.mp hp with ⟨hx, hxs⟩
    rcases hmem with ⟨y, hy, hygid⟩
    by_cases h1 : g.gid < x.gid
    · exfalso
      rcases List.mem_cons.mp hy with rfl | hy'
      · omega
      · have := hx y hy'
        omega
    · by_cases h2 : x.gid < g.gid
      · have hyxs : y ∈ xs := by
          rcases List.mem_cons.mp hy with rfl | hy'
          · omega
          · exact hy'
        simp only [hm_insert, if_neg h1, if_pos h2]
        rw [ih hxs ⟨y, hyxs, hygid⟩]
      · simp only [hm_insert, if_neg h1, if_neg h2]

/-- C9: after any sequence of register and deregister calls the registry
is strictly sorted by group id — so iteration visits groups in strictly
ascending groupId order and each group id is present at most once — and
registering a group whose id is already present leaves the registry
unchanged (idempotent by groupId). -/
theorem c9_groups_registry (ops : List HMOp) :
    List.Pairwise (fun a b => a.gid < b.gid) (hm_apply ops) ∧
    (∀ id, ((hm_apply ops).filter (fun x => x.gid == id)).length ≤ 1) ∧
    (∀ g : ConsensusGroup, (∃ x ∈ hm_apply ops, x.gid = g.gid) →
      hm_insert g (hm_apply ops) = hm_apply ops) := by
  have hp := hm_apply_pairwise ops
  exact ⟨hp, fun id => pairwise_filter_gid_le_one _ hp id,
    fun g hmem => hm_insert_of_mem g _ hp hmem⟩

/-- C9 witness: re-registering group id 1 under a fresh handle leaves a
concrete registry unchanged. -/
theorem c9_groups_registry_witness :
    hm_insert ⟨1, 99⟩ (hm_apply [.reg ⟨1, 0⟩, .reg ⟨2, 0⟩])
      = hm_apply [.reg ⟨1, 0⟩, .reg ⟨2, 0⟩] :=
  (c9_groups_registry [.reg ⟨1, 0⟩, .reg ⟨2, 0⟩]).2.2 ⟨1, 99⟩
    ⟨⟨1, 0⟩, by decide, rfl⟩

/-! Claims C1 and C3: response ordering through the barrier chain. -/

theorem writeOf_fst {o : List (RequestHeader × Option RespMsg)} {a : Nat}
    {p : Nat × List Nat} (h : writeOf o a = some p) : p.1 = a := by
  unfold writeOf at h
  rcases hget : o.getD a dfltOutcome with ⟨hdr, ro⟩
  rcases ro with _ | r <;> rw [hget] at h <;> simp at h
  rw [← h]

theorem writeOf_eq_none {o : List (RequestHeader × Option RespMsg)} {i : Nat}
    {hdr : RequestHeader} (h : o.getD i dfltOutcome = (hdr, none)) :
    writeOf o i = none := by
  unfold writeOf
  rw [h]

theorem writeOf_eq_some {o : List (RequestHeader × Option RespMsg)} {i : Nat}
    {hdr : RequestHeader} {r : RespMsg}
    (h : o.getD i dfltOutcome = (hdr, some r)) :
    writeOf o i = some (i, write_response r hdr.correlationId) := by
  unfold writeOf
  rw [h]

theorem okIdx_false {o : List (RequestHeader × Option RespMsg)} {i : Nat}
    {hdr : RequestHeader} (h : o.getD i dfltOutcome = (hdr, none)) :
    okIdx o i = false := by
  unfold okIdx
  rw [writeOf_eq_none h]
  rfl

theorem okIdx_true {o : List (RequestHeader × Option RespMsg)} {i : Nat}
    {hdr : RequestHeader} {r : RespMsg}
    (h : o.getD i dfltOutcome = (hdr, some r)) : okIdx o i = true := by
  unfold okIdx
  rw [writeOf_eq_some h]
  rfl

theorem orderedWrites_succ (o : List (RequestHeader × Option RespMsg))
    (k : Nat) :
    orderedWrites o (k + 1) = orderedWrites o k ++ (writeOf o k).toList := by
  unfold orderedWrites
  rw [List.range_succ, List.filterMap_append]
  rcases h : writeOf o k with _ | p <;> simp [h]

theorem countOk_succ (o : List (RequestHeader × Option RespMsg)) (k : Nat) :
    countOk o (k + 1) = countOk o k + (if okIdx o k then 1 else 0) := by
  unfold countOk
  rw [List.range_succ, List.filter_append]
  rcases h : okIdx o k with _ | _ <;> simp [h]

theorem chainFlush_unfold (o : List (RequestHeader × Option RespMsg))
    (completed : List Nat) (next : Nat) :
    chainFlush o completed next =
      if next < o.length ∧ next ∈ completed then
        match o.getD next dfltOutcome with
        | (hdr, some r) =>
          ((next, write_response r hdr.correlationId)
              :: (chainFlush o completed (next + 1)).1,
           (chainFlush o completed (next + 1)).2.1 + 1,
           (chainFlush o completed (next + 1)).2.2)
        | (_, none) => chainFlush o completed (next + 1)
      else ([], 0, next) := by
  rw [chainFlush]
  rfl

/-- What one barrier flush achieves: the new barrier position is the
frontier of the completed set, the writes performed extend the ordered
write log from the old position to the new one, and the served counter
grows by the number of successful dispatches passed. -/
theorem chainFlush_spec (o : List (RequestHeader × Option RespMsg))
    (completed : List Nat) :
    ∀ (k next : Nat), o.length - next = k → next ≤ o.length →
    (∀ j, j < next → j ∈ completed) →
    IsFrontier o.length completed (chainFlush o completed next).2.2 ∧
    orderedWrites o next ++ (chainFlush o completed next).1
      = orderedWrites o (chainFlush o completed next).2.2 ∧
    countOk o next + (chainFlush o completed next).2.1
      = countOk o (chainFlush o completed next).2.2 := by
  intro k
  induction k with
  | zero =>
    intro next hk h1 h2
    have hc : ¬ (next < o.length ∧ next ∈ completed) := by
      intro hcc
      omega
    rw [chainFlush_unfold, if_neg hc]
    exact ⟨⟨h1, h2, fun hlt hmem => hc ⟨hlt, hmem⟩⟩, by simp, by simp⟩
  | succ k ih =>
    intro next hk h1 h2
    by_cases hc : next < o.length ∧ next ∈ completed
    · have h2' : ∀ j, j < next + 1 → j ∈ completed := by
        intro j hj
        rcases Nat.lt_succ_iff_lt_or_eq.mp hj with hj' | rfl
        · exact h2 j hj'
        · exact hc.2
      have ih' := ih (next + 1) (by omega) (by omega) h2'
      rw [chainFlush_unfold o completed next, if_pos hc]
      rcases hget : o.getD next dfltOutcome with ⟨hdr, ro⟩
      rcases ro with _ | r
      · have hw : orderedWrites o (next + 1) = orderedWrites o next := by
          rw [orderedWrites_succ, writeOf_eq_none hget]
          simp
        have hcnt : countOk o (next + 1) = countOk o next := by
          rw [countOk_succ, okIdx_false hget]
          simp
        simp only [hget]
        refine ⟨ih'.1, ?_, ?_⟩
        · rw [← hw]
          exact ih'.2.1
        · rw [← hcnt]
          exact ih'.2.2
      · have hw : orderedWrites o (next + 1)
            = orderedWrites o next
                ++ [(next, write_response r hdr.correlationId)] := by
          rw [orderedWrites_succ, writeOf_eq_some hget]
          rfl
        have hcnt : countOk o (next + 1) = countOk o next + 1 := by
          rw [countOk_succ, okIdx_true hget]
          simp
        simp only [hget]
        refine ⟨ih'.1, ?_, ?_⟩
        · rw [List.append_cons, ← hw]
          exact ih'.2.1
        · have hcc := ih'.2.2
          rw [hcnt] at hcc
          omega
    · rw [chainFlush_unfold o completed next, if_neg hc]
      exact ⟨⟨h1, h2, fun hlt hmem => hc ⟨hlt, hmem⟩⟩, by simp, by simp⟩

/-- One dispatch completion preserves the chain invariant. -/
theorem chainStep_inv (o : List (RequestHeader × Option RespMsg))
    (done : List Nat) (st : ChainState) (x : Nat)
    (hx : x < o.length) (hnd : x ∉ done) (inv : ChainInv o done st) :
    ChainInv o (x :: done) (chainStep o st x) := by
  obtain ⟨hcomp, ⟨hle, hbelow, hstop⟩, hwrit, herrs, hserved⟩ := inv
  unfold ChainInv
  rw [chainStep, if_pos hx]
  have hsub : ∀ j, j < st.next → j ∈ x :: st.completed :=
    fun j hj => List.mem_cons_of_mem _ (hbelow j hj)
  have hf := chainFlush_spec o (x :: st.completed)
    (o.length - st.next) st.next rfl hle hsub
  refine ⟨?_, hf.1, ?_, ?_, ?_⟩
  · intro j
    simp only [List.mem_cons, hcomp j]
  · rw [hwrit]
    exact hf.2.1
  · rcases hget : o.getD x dfltOutcome with ⟨hdr2, ro⟩
    rcases ro with _ | r
    · simp [List.filter_cons, okIdx_false hget, herrs]
    · simp [List.filter_cons, okIdx_true hget, herrs]
  · rw [hserved]
    exact hf.2.2

/-- Folding a duplicate-free schedule over the chain preserves the
invariant, accumulating the processed completions. -/
theorem chainRun_inv (o : List (RequestHeader × Option RespMsg)) :
    ∀ (sigma done : List Nat) (st : ChainState),
    sigma.Nodup → (∀ i ∈ sigma, i < o.length) → (∀ i ∈ sigma, i ∉ done) →
    ChainInv o done st →
    ChainInv o (sigma.reverse ++ done) (sigma.foldl (chainStep o) st) := by
  intro sigma
  induction sigma with
  | nil =>
    intro done st _ _ _ inv
    simpa using inv
  | cons x xs ih =>
    intro done st hnd hbound hdis inv
    have hx : x < o.length := hbound x (by simp)
    have hxd : x ∉ done := hdis x (by simp)
    have step := chainStep_inv o done st x hx hxd inv
    have hnd2 : xs.Nodup := (List.nodup_cons.mp hnd).2
    have hxnotxs : x ∉ xs := (List.nodup_cons.mp hnd).1
    have hdis2 : ∀ i ∈ xs, i ∉ x :: done := by
      intro i hi
      simp only [List.mem_cons, not_or]
      exact ⟨fun he => hxnotxs (he ▸ hi),
        hdis i (List.mem_cons_of_mem _ hi)⟩
    have := ih (x :: done) (chainStep o st x) hnd2
      (fun i hi => hbound i (List.mem_cons_of_mem _ hi)) hdis2 step
    simpa [List.reverse_cons, List.append_assoc] using this

/-- The chain after a complete schedule: the invariant holds with every
index completed and the barrier has advanced past the last request. -/
theorem chain_final (o : List (RequestHeader × Option RespMsg))
    (sigma : List Nat) (hnd : sigma.Nodup)
    (hcov : ∀ i, i ∈ sigma ↔ i < o.length) :
    ChainInv o sigma.reverse (chainRun o sigma) ∧
    (chainRun o sigma).next = o.length := by
  have hinit : ChainInv o [] chainInit := by
    refine ⟨by simp [chainInit], ⟨Nat.zero_le _, ?_, ?_⟩, rfl, rfl, rfl⟩
    · intro j hj
      simp [chainInit] at hj
    · intro _
      simp [chainInit]
  have hrun := chainRun_inv o sigma [] chainInit hnd
    (fun i hi => (hcov i).mp hi) (by simp) hinit
  rw [List.append_nil] at hrun
  refine ⟨hrun, ?_⟩
  obtain ⟨hcomp, ⟨hle, hbelow, hstop⟩, _, _, _⟩ := hrun
  by_contra hne
  have hlt : (chainRun o sigma).next < o.length :=
    lt_of_le_of_ne hle hne
  have hmem : (chainRun o sigma).next ∈ sigma := (hcov _).mpr hlt
  exact hstop hlt ((hcomp _).mpr (List.mem_reverse.mpr hmem))

theorem orderedWrites_fst_pairwise (o : List (RequestHeader × Option RespMsg))
    (k : Nat) :
    List.Pairwise (· < ·) ((orderedWrites o k).map Prod.fst) := by
  have main : ∀ l : List Nat, List.Pairwise (· < ·) l →
      List.Pairwise (· < ·) ((l.filterMap (writeOf o)).map Prod.fst) := by
    intro l hl
    induction l with
    | nil => simp
    | cons x xs ih =>
      rcases List.pairwise_cons.mp hl with ⟨hx, hxs⟩
      rcases hw : writeOf o x with _ | p
      · simp only [List.filterMap_cons, hw]
        exact ih hxs
      · simp only [List.filterMap_cons, hw, List.map_cons]
        refine List.pairwise_cons.mpr ⟨?_, ih hxs⟩
        intro b hb
        rcases List.mem_map.mp hb with ⟨q, hq, rfl⟩
        rcases List.mem_filterMap.mp hq with ⟨a, ha, hqa⟩
        rw [writeOf_fst hqa, writeOf_fst hw]
        exact hx a ha
  exact main _ (List.pairwise_lt_range k)

/-- C1: for every list of accepted requests (acceptance order = list
order) and every dispatch-completion schedule covering them, the write log
of the barrier chain equals the responses of the successfully dispatched
requests in acceptance order — the log records write_response calls in
the temporal order they ran, so the response for an earlier request is
fully written before any byte of a later request's response, whatever
order the dispatcher completes them in. -/
theorem c1_response_order (o : List (RequestHeader × Option RespMsg))
    (sigma : List Nat) (hnd : sigma.Nodup)
    (hcov : ∀ i, i ∈ sigma ↔ i < o.length) :
    (chainRun o sigma).written = orderedWrites o o.length ∧
    List.Pairwise (· < ·) ((chainRun o sigma).written.map Prod.fst) := by
  obtain ⟨⟨_, _, hwrit, _, _⟩, hnext⟩ := chain_final o sigma hnd hcov
  constructor
  · rw [hwrit, hnext]
  · rw [hwrit]
    exact orderedWrites_fst_pairwise o _

/-- C1 witness: two successful requests completed in reverse order are
still written in acceptance order. -/
theorem c1_response_order_witness :
    (chainRun [(⟨0, 0, 1, none⟩, some ⟨[[65]]⟩), (⟨0, 0, 2, none⟩, some ⟨[[66]]⟩)]
        [1, 0]).written
      = orderedWrites
          [(⟨0, 0, 1, none⟩, some ⟨[[65]]⟩), (⟨0, 0, 2, none⟩, some ⟨[[66]]⟩)] 2 ∧
    List.Pairwise (· < ·)
      ((chainRun [(⟨0, 0, 1, none⟩, some ⟨[[65]]⟩), (⟨0, 0, 2, none⟩, some ⟨[[66]]⟩)]
          [1, 0]).written.map Prod.fst) :=
  c1_response_order
    [(⟨0, 0, 1, none⟩, some ⟨[[65]]⟩), (⟨0, 0, 2, none⟩, some ⟨[[66]]⟩)]
    [1, 0] (by decide)
    (by
      intro i
      simp only [List.mem_cons, List.not_mem_nil, or_false, List.length_cons,
        List.length_nil]
      omega)

/-- C3: when the dispatch of acceptance index i fails, no write for index
i ever appears in the log, the request_processing_error counter counts
every failed request exactly once (so it is positive), the barrier still
advances past every request, and the log still holds all successfully
dispatched responses in acceptance order — later requests are still
answered and the connection keeps serving. -/
theorem c3_dispatch_failure (o : List (RequestHeader × Option RespMsg))
    (sigma : List Nat) (i : Nat) (hdr : RequestHeader)
    (hnd : sigma.Nodup) (hcov : ∀ j, j ∈ sigma ↔ j < o.length)
    (hi : i < o.length) (hfail : o.getD i dfltOutcome = (hdr, none)) :
    (∀ e ∈ (chainRun o sigma).written, e.1 ≠ i) ∧
    (chainRun o sigma).errors
        = ((List.range o.length).filter (fun j => !okIdx o j)).length ∧
    0 < (chainRun o sigma).errors ∧
    (chainRun o sigma).next = o.length ∧
    (chainRun o sigma).written = orderedWrites o o.length := by
  obtain ⟨⟨hcomp, hfront, hwrit, herrs, hserved⟩, hnext⟩ :=
    chain_final o sigma hnd hcov
  have hokfalse : okIdx o i = false := okIdx_false hfail
  have hperm : sigma.reverse.Perm (List.range o.length) := by
    rw [List.perm_ext_iff_of_nodup (by simpa using hnd)
      (List.nodup_range o.length)]
    intro a
    rw [List.mem_reverse, List.mem_range]
    exact hcov a
  have herrs' : (chainRun o sigma).errors
      = ((List.range o.length).filter (fun j => !okIdx o j)).length := by
    rw [herrs]
    exact (hperm.filter _).length_eq
  refine ⟨?_, herrs', ?_, hnext, by rw [hwrit, hnext]⟩
  · intro e he hei
    rw [hwrit] at he
    rcases List.mem_filterMap.mp he with ⟨a, _, hwa⟩
    have ha : e.1 = a := writeOf_fst hwa
    rw [hei] at ha
    rw [← ha] at hwa
    rw [writeOf_eq_none hfail] at hwa
    exact Option.noConfusion hwa
  · rw [herrs']
    have hmem : i ∈ (List.range o.length).filter (fun j => !okIdx o j) :=
      List.mem_filter.mpr ⟨List.mem_range.mpr hi, by simp [hokfalse]⟩
    exact List.length_pos.mpr (List.ne_nil_of_mem hmem)

/-- C3 witness: three requests where the middle dispatch fails, completed
in the order 1, 2, 0. -/
theorem c3_dispatch_failure_witness :
    (∀ e ∈ (chainRun
        [(⟨0, 0, 1, none⟩, some ⟨[[65]]⟩), (⟨0, 0, 2, none⟩, none),
         (⟨0, 0, 3, none⟩, some ⟨[[66]]⟩)] [1, 2, 0]).written, e.1 ≠ 1) ∧
    (chainRun
        [(⟨0, 0, 1, none⟩, some ⟨[[65]]⟩), (⟨0, 0, 2, none⟩, none),
         (⟨0, 0, 3, none⟩, some ⟨[[66]]⟩)] [1, 2, 0]).errors
      = ((List.range 3).filter
          (fun j => !okIdx
            [(⟨0, 0, 1, none⟩, some ⟨[[65]]⟩), (⟨0, 0, 2, none⟩, none),
             (⟨0, 0, 3, none⟩, some ⟨[[66]]⟩)] j)).length ∧
    0 < (chainRun
        [(⟨0, 0, 1, none⟩, some ⟨[[65]]⟩), (⟨0, 0, 2, none⟩, none),
         (⟨0, 0, 3, none⟩, some ⟨[[66]]⟩)] [1, 2, 0]).errors ∧
    (chainRun
        [(⟨0, 0, 1, none⟩, some ⟨[[65]]⟩), (⟨0, 0, 2, none⟩, none),
         (⟨0, 0, 3, none⟩, some ⟨[[66]]⟩)] [1, 2, 0]).next = 3 ∧
    (chainRun
        [(⟨0, 0, 1, none⟩, some ⟨[[65]]⟩), (⟨0, 0, 2, none⟩, none),
         (⟨0, 0, 3, none⟩, some ⟨[[66]]⟩)] [1, 2, 0]).written
      = orderedWrites
          [(⟨0, 0, 1, none⟩, some ⟨[[65]]⟩), (⟨0, 0, 2, none⟩, none),
           (⟨0, 0, 3, none⟩, some ⟨[[66]]⟩)] 3 :=
  c3_dispatch_failure
    [(⟨0, 0, 1, none⟩, some ⟨[[65]]⟩), (⟨0, 0, 2, none⟩, none),
     (⟨0, 0, 3, none⟩, some ⟨[[66]]⟩)]
    [1, 2, 0] 1 ⟨0, 0, 2, none⟩ (by decide)
    (by
      intro j
      simp only [List.mem_cons, List.not_mem_nil, or_false, List.length_cons,
        List.length_nil]
      omega)
    (by decide) (by decide)

end RP
